import Mathlib

/-!
Verification development for the taskmanager browser extension (src/main.js).

The JavaScript source is shallowly embedded: plain objects become structures,
the mutable module-level `state` becomes an explicit `Store` value threaded
through the operations, timestamps (`Date` values and `Date.now()` results)
become integers counting milliseconds, and the current instant is passed in
explicitly as a `now` parameter.  Absent numeric fields are modelled as `0`
(both are JavaScript-falsy), absent object/array/date fields as `Option.none`.
Storage writes are modelled by a `didSave` flag returned next to the new store;
`saveState` itself is modelled separately with explicit failure flags for the
primary and the mirror write.  The local timezone is modelled with a zero UTC
offset and no daylight-saving transitions, so a local calendar day is a block
of 86400000 consecutive milliseconds.
-/

namespace TaskManager

/-- Result of the JavaScript expression `s || d` for an optional string `s`:
the default is used when the field is absent or the empty string (falsy). -/
def jsOrStr (o : Option String) (d : String) : String :=
  match o with
  | none => d
  | some s => if s = "" then d else s

/-- Result of the JavaScript expression `n || d` for a numeric field modelled
as a plain integer where `0` stands for absent-or-zero (both falsy). -/
def jsOrNum (n : Int) (d : Int) : Int :=
  if n = 0 then d else n

/-- Truthiness of an optional string (JavaScript `!x` is true for a missing
value and for the empty string). -/
def jsTruthyStr (o : Option String) : Bool :=
  match o with
  | none => false
  | some s => s ≠ ""

/-- Truthiness of an optional number: absent and `0` are falsy. -/
def jsTruthyNum (o : Option Int) : Bool :=
  match o with
  | none => false
  | some n => n ≠ 0

/-- A task record as built by `createTask` / carried in `tasks` / `doneTasks`.
`createTask` never assigns an `id`, so `id` is optional; imported tasks may
carry one. -/
structure Task where
  title : String
  description : String := ""
  id : Option String := none
  createdAt : Int := 0
  updatedAt : Int := 0
  completedAt : Option Int := none
deriving Repr, DecidableEq

/-- Global settings with the defaults used throughout `main.js`. -/
structure GlobalSettings where
  theme : String := "dark"
  defaultProjectColor : String := "#4CAF50"
  showCompletedProjects : Bool := false
  maxProjects : Nat := 10
deriving Repr, DecidableEq

/-- A project record as built by `ProjectManager.createProject`.  The
`createdAt` and `updatedAt` ISO strings are modelled as the instants they
denote. -/
structure Project where
  id : String
  goal : String := ""
  targetDate : Option Int := none
  goalCreatedAt : Option Int := none
  tasks : List Task := []
  doneTasks : List Task := []
  color : String := "#4CAF50"
  isActive : Bool := true
  order : Nat := 0
  createdAt : Int := 0
  updatedAt : Int := 0
deriving Repr, DecidableEq

/-- The `state.projects` object: an insertion-ordered association list from
project id to project, mirroring a JavaScript object. -/
abbrev ProjectMap := List (String × Project)

/-- Property read `m[k]`, yielding the bound project or nothing. -/
def lookupProj (m : ProjectMap) (k : String) : Option Project :=
  match m.find? (fun kv => kv.1 = k) with
  | some kv => some kv.2
  | none => none

/-- Property write `m[k] = v`: replaces the binding in place when the key
exists, otherwise appends it (JavaScript objects keep insertion order). -/
def setProj : ProjectMap → String → Project → ProjectMap
  | [], k, v => [(k, v)]
  | kv :: rest, k, v =>
      if kv.1 = k then (k, v) :: rest else kv :: setProj rest k v

/-- Property deletion `delete m[k]`. -/
def eraseProj (m : ProjectMap) (k : String) : ProjectMap :=
  m.filter (fun kv => kv.1 ≠ k)

/-- `Object.keys(m)` in insertion order. -/
def projKeys (m : ProjectMap) : List String :=
  m.map Prod.fst

/-- The multi-project application state (the module-level `state` object).
The legacy single-project fields are not part of the migrated data model and
are always reset to their empty defaults, so they are omitted. -/
structure Store where
  projects : ProjectMap := []
  activeProjectId : Option String := none
  projectOrder : List String := []
  globalSettings : GlobalSettings := {}
  migrationVersion : Nat := 2
deriving Repr, DecidableEq

/-- The argument object of `createProject`; every field optional. -/
structure ProjectData where
  goal : Option String := none
  targetDate : Option Int := none
  goalCreatedAt : Option Int := none
  tasks : Option (List Task) := none
  doneTasks : Option (List Task) := none
  color : Option String := none
deriving Repr, DecidableEq

/-- `ProjectManager.createProject`: builds the new project record, inserts it,
appends its id to the order list, makes it active when no project was active,
and saves.  The generated id is passed in as `projectId`; the second component
is the returned project and the third records that `saveState` was called. -/
def createProject (now : Int) (projectId : String) (pd : ProjectData)
    (s : Store) : Store × Project × Bool :=
  let newProject : Project :=
    { id := projectId
      goal := jsOrStr pd.goal "New Project"
      targetDate := pd.targetDate
      goalCreatedAt := some (pd.goalCreatedAt.getD now)
      tasks := pd.tasks.getD []
      doneTasks := pd.doneTasks.getD []
      color := jsOrStr pd.color s.globalSettings.defaultProjectColor
      isActive := true
      order := s.projectOrder.length
      createdAt := now
      updatedAt := now }
  let s1 : Store :=
    { s with
      projects := setProj s.projects projectId newProject
      projectOrder := s.projectOrder ++ [projectId] }
  let s2 : Store :=
    if jsTruthyStr s1.activeProjectId then s1
    else { s1 with activeProjectId := some projectId }
  (s2, newProject, true)

/-- The partial-update object passed to `updateProject`; a present field
overwrites the corresponding project field, mirroring the object spread. -/
structure ProjectUpdates where
  id : Option String := none
  goal : Option String := none
  targetDate : Option (Option Int) := none
  goalCreatedAt : Option (Option Int) := none
  tasks : Option (List Task) := none
  doneTasks : Option (List Task) := none
  color : Option String := none
  isActive : Option Bool := none
  order : Option Nat := none
deriving Repr, DecidableEq

/-- Field-by-field merge `\x7b...project, ...updates\x7d`. -/
def applyUpdates (p : Project) (u : ProjectUpdates) : Project :=
  { id := u.id.getD p.id
    goal := u.goal.getD p.goal
    targetDate := u.targetDate.getD p.targetDate
    goalCreatedAt := u.goalCreatedAt.getD p.goalCreatedAt
    tasks := u.tasks.getD p.tasks
    doneTasks := u.doneTasks.getD p.doneTasks
    color := u.color.getD p.color
    isActive := u.isActive.getD p.isActive
    order := u.order.getD p.order
    createdAt := p.createdAt
    updatedAt := p.updatedAt }

/-- `ProjectManager.updateProject`: returns `none` without touching the store
or saving when the id is unknown; otherwise merges the updates, refreshes
`updatedAt`, stores the result and saves. -/
def updateProject (now : Int) (projectId : String) (u : ProjectUpdates)
    (s : Store) : Store × Option Project × Bool :=
  match lookupProj s.projects projectId with
  | none => (s, none, false)
  | some p =>
      let p1 : Project := { applyUpdates p u with updatedAt := now }
      ({ s with projects := setProj s.projects projectId p1 }, some p1, true)

/-- `ProjectManager.deleteProject`: returns `false` without touching the store
or saving when the id is unknown; otherwise removes the project from the map
and the order list, moves the active pointer to the first remaining id (or
clears it) when the deleted project was active, and saves. -/
def deleteProject (projectId : String) (s : Store) : Store × Bool × Bool :=
  match lookupProj s.projects projectId with
  | none => (s, false, false)
  | some _ =>
      let projects1 := eraseProj s.projects projectId
      let order1 := s.projectOrder.filter (fun i => i ≠ projectId)
      let active1 : Option String :=
        if s.activeProjectId = some projectId then
          match order1 with
          | [] => none
          | h :: _ => some h
        else s.activeProjectId
      ({ s with
          projects := projects1
          projectOrder := order1
          activeProjectId := active1 }, true, true)

/-- `ProjectManager.setActiveProject`: returns `false` without touching the
store or saving when the id is unknown; otherwise repoints the active id and
saves. -/
def setActiveProject (projectId : String) (s : Store) : Store × Bool × Bool :=
  match lookupProj s.projects projectId with
  | none => (s, false, false)
  | some _ => ({ s with activeProjectId := some projectId }, true, true)

/-- The project record built inside `createProject`. -/
def createdProject (now : Int) (pid : String) (pd : ProjectData)
    (s : Store) : Project :=
  (createProject now pid pd s).2.1

/-- Well-formedness of a store: the project map has no duplicate keys, the
order list is a permutation of the keys, and the active pointer is empty
exactly when no project exists and otherwise names an existing project. -/
def StoreInv (s : Store) : Prop :=
  (projKeys s.projects).Nodup ∧
  s.projectOrder.Perm (projKeys s.projects) ∧
  (s.projects = [] → s.activeProjectId = none) ∧
  (s.projects ≠ [] → ∃ pid p, s.activeProjectId = some pid ∧
    lookupProj s.projects pid = some p)

/-- A project-level operation of the `ProjectManager` (the generated id of a
`createProject` call is recorded in the operation). -/
inductive ProjectOp where
  | create (now : Int) (projectId : String) (pd : ProjectData)
  | update (now : Int) (projectId : String) (u : ProjectUpdates)
  | delete (projectId : String)

/-- State reached after one operation. -/
def applyOp (s : Store) : ProjectOp → Store
  | ProjectOp.create now pid pd => (createProject now pid pd s).1
  | ProjectOp.update now pid u => (updateProject now pid u s).1
  | ProjectOp.delete pid => (deleteProject pid s).1

/-- The id generated for a `createProject` call is fresh, which is the
contract of `generateProjectId` (documented as returning a unique id). -/
def OpFresh (s : Store) : ProjectOp → Prop
  | ProjectOp.create _ pid _ => lookupProj s.projects pid = none
  | ProjectOp.update _ _ _ => True
  | ProjectOp.delete _ => True

/-- State reached after a sequence of operations. -/
def applyOps : Store → List ProjectOp → Store
  | s, [] => s
  | s, op :: ops => applyOps (applyOp s op) ops

/-- Freshness of every generated id along a sequence of operations. -/
def OpsFresh : Store → List ProjectOp → Prop
  | _, [] => True
  | s, op :: ops => OpFresh s op ∧ OpsFresh (applyOp s op) ops

theorem createProject_fst (now : Int) (pid : String) (pd : ProjectData)
    (s : Store) :
    (createProject now pid pd s).1 =
      { s with
        projects := setProj s.projects pid (createdProject now pid pd s)
        projectOrder := s.projectOrder ++ [pid]
        activeProjectId :=
          if jsTruthyStr s.activeProjectId then s.activeProjectId
          else some pid } := by
  by_cases h : jsTruthyStr s.activeProjectId <;>
    simp [createProject, createdProject, h]

/-- `createTask`: a fresh pending task with creation and update timestamps set
to now and no completion timestamp. -/
def createTask (now : Int) (title : String) (description : String) : Task :=
  { title := title
    description := description
    createdAt := now
    updatedAt := now }

/-- `updateTask`: object-spread merge of a partial title/description update
that always refreshes the update timestamp and keeps every other field. -/
def updateTask (now : Int) (t : Task) (updTitle updDescription : Option String) :
    Task :=
  { t with
    title := updTitle.getD t.title
    description := updDescription.getD t.description
    updatedAt := now }

/-- Which of the two task collections of the active project an operation
addresses (the `todo`/`done` list markers of the UI). -/
inductive TaskListId where
  | todo
  | done
deriving Repr, DecidableEq

/-- The collection selected by a list marker. -/
def getList (p : Project) : TaskListId → List Task
  | TaskListId.todo => p.tasks
  | TaskListId.done => p.doneTasks

/-- Replaces the collection selected by a list marker. -/
def setList (p : Project) : TaskListId → List Task → Project
  | TaskListId.todo, l => { p with tasks := l }
  | TaskListId.done, l => { p with doneTasks := l }

/-- `ProjectManager.getActiveProject`, together with the id it resolved:
`state.activeProjectId ? state.projects[state.activeProjectId] : null`. -/
def activeProjectEntry (s : Store) : Option (String × Project) :=
  match s.activeProjectId with
  | none => none
  | some pid =>
      if pid = "" then none
      else
        match lookupProj s.projects pid with
        | none => none
        | some p => some (pid, p)

/-- `saveTask`: rejects an empty title and a missing active project without
saving; edits the indexed task in place via `updateTask` when an index is
given (the index always comes from a rendered task, so it is in range; an
out-of-range index is modelled as leaving the list unchanged), otherwise
appends a fresh task to the pending list; then saves. -/
def saveTask (now : Int) (title description : String) (idx : Option Nat)
    (listId : TaskListId) (s : Store) : Store × Bool :=
  if title = "" then (s, false)
  else
    match activeProjectEntry s with
    | none => (s, false)
    | some (pid, p) =>
        let p1 : Project :=
          match idx with
          | some i =>
              let tl := getList p listId
              match tl[i]? with
              | some existingTask =>
                  setList p listId
                    (tl.set i (updateTask now existingTask (some title)
                      (some description)))
              | none => p
          | none => { p with tasks := p.tasks ++ [createTask now title description] }
        ({ s with projects := setProj s.projects pid p1 }, true)

/-- `deleteTask`: no-op without an index or an active project; otherwise
splices the indexed task out of the addressed list and saves. -/
def deleteTask (idx : Option Nat) (listId : TaskListId) (s : Store) :
    Store × Bool :=
  match idx with
  | none => (s, false)
  | some i =>
      match activeProjectEntry s with
      | none => (s, false)
      | some (pid, p) =>
          let p1 := setList p listId ((getList p listId).eraseIdx i)
          ({ s with projects := setProj s.projects pid p1 }, true)

/-- `handleDrop`: moving a dragged task between the two lists of the active
project.  Returns unchanged when the source and target list coincide or the
index is stale; stamps `completedAt`/`updatedAt` when dropping on the done
list and removes `completedAt` when dropping back on the todo list, then
splices the task out of the source and pushes it onto the target and saves. -/
def handleDrop (now : Int) (fromList toList : TaskListId) (idx : Nat)
    (s : Store) : Store × Bool :=
  match activeProjectEntry s with
  | none => (s, false)
  | some (pid, p) =>
      if fromList = toList then (s, false)
      else
        match (getList p fromList)[idx]? with
        | none => (s, false)
        | some task =>
            let task1 : Task :=
              match toList with
              | TaskListId.done =>
                  { task with completedAt := some now, updatedAt := now }
              | TaskListId.todo =>
                  { task with completedAt := none, updatedAt := now }
            let p1 := setList p fromList ((getList p fromList).eraseIdx idx)
            let p2 := setList p1 toList (getList p1 toList ++ [task1])
            ({ s with projects := setProj s.projects pid p2 }, true)

/-- `moveTask`: the swipe/tap counterpart of `handleDrop`.  It refreshes the
task through `updateTask`, stamps or clears `completedAt` depending on the
target list, splices it out of the source and pushes it onto the target, and
saves. -/
def moveTask (now : Int) (idx : Nat) (fromList toList : TaskListId)
    (s : Store) : Store × Bool :=
  match activeProjectEntry s with
  | none => (s, false)
  | some (pid, p) =>
      match (getList p fromList)[idx]? with
      | none => (s, false)
      | some task =>
          let updatedTask := updateTask now task none none
          let updatedTask1 : Task :=
            match toList with
            | TaskListId.done => { updatedTask with completedAt := some now }
            | TaskListId.todo => { updatedTask with completedAt := none }
          let p1 := setList p fromList ((getList p fromList).eraseIdx idx)
          let p2 := setList p1 toList (getList p1 toList ++ [updatedTask1])
          ({ s with projects := setProj s.projects pid p2 }, true)

/-- The completion-timestamp invariant of one project: every done task has a
completion timestamp and no pending task has one. -/
def TasksInv (p : Project) : Prop :=
  (∀ t ∈ p.doneTasks, t.completedAt.isSome) ∧
  (∀ t ∈ p.tasks, t.completedAt = none)

/-- The completion-timestamp invariant over every project of the store. -/
def StoreTasksInv (s : Store) : Prop :=
  ∀ kv ∈ s.projects, TasksInv kv.2

/-- A partial global-settings object as found in an imported document; a
present field overwrites the corresponding setting on merge. -/
structure GlobalSettingsPartial where
  theme : Option String := none
  defaultProjectColor : Option String := none
  showCompletedProjects : Option Bool := none
  maxProjects : Option Nat := none
deriving Repr, DecidableEq

/-- Field-by-field spread merge of partial settings over current settings. -/
def mergeSettings (g : GlobalSettings) (u : GlobalSettingsPartial) :
    GlobalSettings :=
  { theme := u.theme.getD g.theme
    defaultProjectColor := u.defaultProjectColor.getD g.defaultProjectColor
    showCompletedProjects := u.showCompletedProjects.getD g.showCompletedProjects
    maxProjects := u.maxProjects.getD g.maxProjects }

/-- The `data` section of an import document.  A current-schema document has
`projects` present; a legacy single-project document has the flat fields.
Wire-format date strings are modelled as the instants they denote, with
`none` covering both an absent field and a falsy one. -/
structure ImportDataSection where
  projects : Option ProjectMap := none
  activeProjectId : Option String := none
  projectOrder : Option (List String) := none
  globalSettings : Option GlobalSettingsPartial := none
  goal : Option String := none
  targetDate : Option Int := none
  goalCreatedAt : Option Int := none
  tasks : Option (List Task) := none
  doneTasks : Option (List Task) := none
deriving Repr, DecidableEq

/-- A parsed import document. -/
structure ImportDoc where
  version : Option String := none
  data : Option ImportDataSection := none
deriving Repr, DecidableEq

/-- Outcome reported by `importData` through `showNotification`. -/
inductive ImportResult where
  | success (projectCount : Nat)
  | failure
deriving Repr, DecidableEq

/-- `importData`: the argument is the result of `JSON.parse` on the chosen
file (`none` for a parse error).  A missing/falsy `version` or a missing
`data` section is rejected before any mutation and without saving.  A
current-schema document (a `data.projects` map) is adopted wholesale with
order defaulting to the map keys and settings merged field-by-field; a legacy
flat document is converted into a single freshly-identified project that
replaces the whole project set and becomes active.  On success the store is
saved and the number of projects reported. -/
def importData (now : Int) (freshId : String) (parsed : Option ImportDoc)
    (s : Store) : Store × Bool × ImportResult :=
  match parsed with
  | none => (s, false, ImportResult.failure)
  | some doc =>
      if jsTruthyStr doc.version = false then (s, false, ImportResult.failure)
      else
        match doc.data with
        | none => (s, false, ImportResult.failure)
        | some d =>
            let s1 : Store :=
              match d.projects with
              | some projs =>
                  { s with
                    projects := projs
                    activeProjectId := d.activeProjectId
                    projectOrder := d.projectOrder.getD (projKeys projs)
                    globalSettings :=
                      mergeSettings s.globalSettings (d.globalSettings.getD {}) }
              | none =>
                  let newProject : Project :=
                    { id := freshId
                      goal := jsOrStr d.goal "Imported Project"
                      targetDate := d.targetDate
                      goalCreatedAt := some (d.goalCreatedAt.getD now)
                      tasks := d.tasks.getD []
                      doneTasks := d.doneTasks.getD []
                      color := "#4CAF50"
                      isActive := true
                      order := 0
                      createdAt := now
                      updatedAt := now }
                  { s with
                    projects := [(freshId, newProject)]
                    activeProjectId := some freshId
                    projectOrder := [freshId] }
            let s2 : Store := { s1 with migrationVersion := 2 }
            (s2, true, ImportResult.success (projKeys s2.projects).length)

/-- The timestamp `new Date(t.completedAt || t.updatedAt || t.createdAt)`
used by the retention cleanup to rank done tasks. -/
def relevantTime (t : Task) : Int :=
  match t.completedAt with
  | some c => if c = 0 then jsOrNum t.updatedAt t.createdAt else c
  | none => jsOrNum t.updatedAt t.createdAt

/-- Inserts a task into a list already sorted by `relevantTime` descending,
after every strictly more recent entry and before equal-or-older ones. -/
def insertTaskDesc (t : Task) : List Task → List Task
  | [] => [t]
  | u :: us =>
      if relevantTime t < relevantTime u then u :: insertTaskDesc t us
      else t :: u :: us

/-- The stable descending sort
`[...doneTasks].sort((a, b) => time(b) - time(a))` (JavaScript array sort is
stable, so ties keep their original order, as they do here). -/
def sortTasksDesc : List Task → List Task
  | [] => []
  | t :: ts => insertTaskDesc t (sortTasksDesc ts)

/-- Ninety days in milliseconds. -/
def ninetyDaysMs : Int := 7776000000

/-- The per-project body of `cleanupOldTasksAllProjects`: a project with at
most 1000 done tasks is untouched; otherwise the 1000 most recent tasks are
kept, plus every task within the last 90 days whose `id` is not among the ids
of those 1000 (a `Set` of the JavaScript `id` values, which are all
`undefined` for tasks created by `createTask`).  The second component is the
number of removed entries. -/
def cleanupProject (now : Int) (p : Project) : Project × Nat :=
  if p.doneTasks.length ≤ 1000 then (p, 0)
  else
    let ninetyDaysAgo := now - ninetyDaysMs
    let sortedByDate := sortTasksDesc p.doneTasks
    let recentTasks := sortedByDate.take 1000
    let recentTaskIds := recentTasks.map (fun t => t.id)
    let additionalRecentTasks := p.doneTasks.filter (fun t =>
      if t.id ∈ recentTaskIds then false
      else decide (ninetyDaysAgo ≤ relevantTime t))
    let newDoneTasks := recentTasks ++ additionalRecentTasks
    if newDoneTasks.length < p.doneTasks.length then
      ({ p with doneTasks := newDoneTasks },
        p.doneTasks.length - newDoneTasks.length)
    else (p, 0)

/-- `cleanupOldTasksAllProjects`: trims every project and saves exactly when
at least one entry was removed anywhere. -/
def cleanupOldTasksAllProjects (now : Int) (s : Store) : Store × Bool :=
  let projects1 := s.projects.map (fun kv => (kv.1, (cleanupProject now kv.2).1))
  let totalCleaned :=
    (s.projects.map (fun kv => (cleanupProject now kv.2).2)).sum
  ({ s with projects := projects1 }, decide (0 < totalCleaned))

/-- The five primary keys written by `saveState` to the local storage area
(serialization is modelled as the identity). -/
structure PersistedLocal where
  projects_data : ProjectMap
  global_settings : GlobalSettings
  active_project : Option String
  project_order : List String
  migration_version : Nat
deriving Repr, DecidableEq

/-- The `projects_metadata` mirror written to the sync storage area. -/
structure SyncMetadata where
  projectIds : List String
  activeProjectId : Option String
  globalSettings : GlobalSettings
  migrationVersion : Nat
deriving Repr, DecidableEq

/-- The two storage areas touched by `saveState`. -/
structure StorageState where
  localData : Option PersistedLocal := none
  syncMeta : Option SyncMetadata := none
deriving Repr, DecidableEq

/-- The primary payload of a store. -/
def persistedOf (s : Store) : PersistedLocal :=
  { projects_data := s.projects
    global_settings := s.globalSettings
    active_project := s.activeProjectId
    project_order := s.projectOrder
    migration_version := s.migrationVersion }

/-- The metadata payload of a store. -/
def metadataOf (s : Store) : SyncMetadata :=
  { projectIds := projKeys s.projects
    activeProjectId := s.activeProjectId
    globalSettings := s.globalSettings
    migrationVersion := s.migrationVersion }

/-- `saveState`: the primary local write happens first and its failure is
re-thrown to the caller with the storage unchanged; the best-effort sync
mirror write happens second inside its own try/catch, so its failure is
swallowed and the primary write is kept.  The two failure flags say whether
the respective `chrome.storage` call rejects. -/
def saveState (s : Store) (st : StorageState) (localFails syncFails : Bool) :
    Except String StorageState :=
  if localFails then Except.error "Error saving to local storage"
  else
    let st1 : StorageState := { st with localData := some (persistedOf s) }
    if syncFails then Except.ok st1
    else Except.ok { st1 with syncMeta := some (metadataOf s) }

/-- Milliseconds per local calendar day (the model has a fixed zero UTC
offset and no daylight-saving transitions). -/
def dayMs : Int := 86400000

/-- The local calendar day containing an instant (floor division, matching
the local calendar fields of `Date`); stands for the local `YYYY-MM-DD`
string of `formatDateToString`. -/
def dayOf (t : Int) : Int := t / dayMs

/-- `setHours(0, 0, 0, 0)`: local midnight of the day containing `t`. -/
def floorDay (t : Int) : Int := dayOf t * dayMs

/-- `setHours(23, 59, 59, 999)`: the last millisecond of the day of `t`. -/
def endOfDay (t : Int) : Int := floorDay t + (dayMs - 1)

/-- `Math.min(...allTasks.map(task => task.createdAt || Date.now()))` (only
used behind a nonemptiness check; the nil case is unreachable). -/
def earliestCreated (now : Int) (ts : List Task) : Int :=
  match ts.map (fun t => jsOrNum t.createdAt now) with
  | [] => 0
  | x :: xs => xs.foldl min x

/-- The instant `getActivityStartDate` floors: the earlier of the
goal-creation instant (today when unset) and the earliest task-creation
instant when any task exists. -/
def activityStartInstant (now : Int) (p : Project) : Int :=
  let startDate0 := p.goalCreatedAt.getD now
  let allTasks := p.tasks ++ p.doneTasks
  if allTasks.length > 0 then
    if earliestCreated now allTasks < startDate0 then
      earliestCreated now allTasks
    else startDate0
  else startDate0

/-- `getActivityStartDate`: the start instant floored to local midnight. -/
def getActivityStartDate (now : Int) (p : Project) : Int :=
  floorDay (activityStartInstant now p)

/-- `getActivityLevel`: the bucketed heat-map intensity of a daily count. -/
def getActivityLevel (count : Nat) : Int :=
  if count = 0 then 0
  else if count ≤ 2 then 1
  else if count ≤ 4 then 2
  else if count ≤ 6 then 3
  else 4

/-- `getTasksCompletedOnDate`: how many done tasks have a truthy completion
timestamp falling on the given local calendar day. -/
def getTasksCompletedOnDate (d : Int) (p : Project) : Nat :=
  (p.doneTasks.filter (fun t =>
    match t.completedAt with
    | none => false
    | some c => if c = 0 then false else decide (dayOf c = d))).length

/-- One cell of the activity matrix (`dateStr` is the local day number
standing for the formatted date string). -/
structure MatrixEntry where
  date : Int
  dateStr : Int
  count : Nat
  level : Int
  dayOfWeek : Int
  isToday : Bool
  isFuture : Bool
deriving Repr, DecidableEq

/-- The cell pushed by one iteration of the generation loop at instant `cur`
(always a local midnight). -/
def mkMatrixEntry (now : Int) (p : Project) (cur : Int) : MatrixEntry :=
  let dateStr := dayOf cur
  let tasksCompleted := getTasksCompletedOnDate dateStr p
  let isToday : Bool := decide (dayOf now = dateStr)
  let isFuture : Bool := decide (now < cur)
  { date := cur
    dateStr := dateStr
    count := tasksCompleted
    level := if isFuture && !isToday then -1 else getActivityLevel tasksCompleted
    dayOfWeek := (dateStr + 4).emod 7
    isToday := isToday
    isFuture := isFuture && !isToday }

/-- The day-stepping while-loop of `generateActivityMatrix`. -/
def matrixLoop (now : Int) (p : Project) (endDate : Int) (cur : Int) :
    List MatrixEntry :=
  if cur ≤ endDate then
    mkMatrixEntry now p cur :: matrixLoop now p endDate (cur + dayMs)
  else []
termination_by (endDate + 1 - cur).toNat
decreasing_by
  simp_wf
  simp only [dayMs]
  omega

/-- `generateActivityMatrix`: empty without a goal-creation instant or a
target date; otherwise one cell per local day from the activity start date
through the later of today and the target date (both at end of day). -/
def generateActivityMatrix (now : Int) (p : Project) : List MatrixEntry :=
  let startDate := getActivityStartDate now p
  if p.goalCreatedAt = none ∨ p.targetDate = none then []
  else
    let todayEnd := endOfDay now
    let targetEnd := endOfDay (p.targetDate.getD 0)
    let endDate := if todayEnd < targetEnd then targetEnd else todayEnd
    matrixLoop now p endDate startDate

/-- The consecutive integer days `d, d + 1, ..., d + n - 1`, used to state
closed forms of the generation loop. -/
def dayRange (d : Int) : Nat → List Int
  | 0 => []
  | Nat.succ m => d :: dayRange (d + 1) m

/-- The intensity bucketing exactly as the specification words it: 0 for
count 0, 1 for counts 1-2, 2 for 3-4, 3 for 5-6, 4 for 7 or more. -/
def claimLevel (count : Nat) : Int :=
  if count = 0 then 0
  else if 1 ≤ count ∧ count ≤ 2 then 1
  else if 3 ≤ count ∧ count ≤ 4 then 2
  else if 5 ≤ count ∧ count ≤ 6 then 3
  else 4

/-- The start day exactly as the specification words it: the earlier of the
goal-creation day and the day of the earliest task-creation instant among
all pending and done tasks (just the goal-creation day when there are no
tasks). -/
def claimStartDay (now : Int) (p : Project) (g : Int) : Int :=
  if (p.tasks ++ p.doneTasks).length = 0 then dayOf g
  else min (dayOf g) (dayOf (earliestCreated now (p.tasks ++ p.doneTasks)))

/-- The current streak exactly as the specification words it: the number of
consecutive days with a positive completion count, walking backward from day
`D` through at most `m` days, stopping at the first zero-count day. -/
def consecActive (cnt : Int → Nat) (D : Int) : Nat → Nat
  | 0 => 0
  | Nat.succ k => if 0 < cnt D then 1 + consecActive cnt (D - 1) k else 0

/-- A project whose single done task carries a completion instant on the day
after `now = 0` (reachable by importing such data), with the target date two
days out: its generated matrix has a future cell with count 1. -/
def futureProj : Project :=
  { id := "project_a"
    goal := "g"
    goalCreatedAt := some 0
    targetDate := some (2 * dayMs)
    doneTasks := [{ title := "a", createdAt := 1, updatedAt := 1,
                    completedAt := some dayMs }] }

/-- The backward scan locating the last matrix index holding today's date
string. -/
def findLastTodayIdx (now : Int) (matrix : List MatrixEntry) : Option Nat :=
  match matrix.reverse.findIdx? (fun e => decide (e.dateStr = dayOf now)) with
  | none => none
  | some j => some (matrix.length - 1 - j)

/-- The today-absent walk of `getCurrentStreak` over the reversed matrix:
future cells are skipped, positive-count cells extend the streak, and the
first non-future zero-count cell stops it. -/
def streakNoToday : List MatrixEntry → Nat
  | [] => 0
  | e :: rest =>
      if e.isFuture then streakNoToday rest
      else if e.count > 0 then 1 + streakNoToday rest
      else 0

/-- The backward count from today's cell: consecutive positive-count cells
until the first zero. -/
def countWhilePos : List MatrixEntry → Nat
  | [] => 0
  | e :: rest => if e.count > 0 then 1 + countWhilePos rest else 0

/-- `getCurrentStreak`. -/
def getCurrentStreak (now : Int) (matrix : List MatrixEntry) : Nat :=
  match findLastTodayIdx now matrix with
  | none => streakNoToday matrix.reverse
  | some i => countWhilePos ((matrix.take (i + 1)).reverse)

/-- `updateActivityStats`, as the triple (total completed tasks, active days,
current streak) interpolated into the stats line.  The total sums the counts
of every cell of the matrix; the active-day count filters out future cells
first. -/
def updateActivityStats (now : Int) (matrix : List MatrixEntry) :
    Nat × Nat × Nat :=
  let pastAndPresentDays := matrix.filter (fun e => !e.isFuture)
  let activeDays := (pastAndPresentDays.filter (fun e => e.count > 0)).length
  let totalTasks := matrix.foldl (fun sum e => sum + e.count) 0
  let streak := getCurrentStreak now matrix
  (totalTasks, activeDays, streak)

/-- A done collection of 1001 id-less tasks (as built by `createTask`, which
assigns no `id`), all completed within the last 90 days of instant `0`,
newest first. -/
def overfullDoneTasks : List Task :=
  (List.range 1001).map (fun (k : Nat) =>
    { title := "t"
      createdAt := 1001 - (k : Int)
      updatedAt := 1001 - (k : Int)
      completedAt := some (1001 - (k : Int)) })

/-- A project holding `overfullDoneTasks`. -/
def overfullProject : Project :=
  { id := "project_a", doneTasks := overfullDoneTasks }

theorem lookupProj_cons (kv : String × Project) (rest : ProjectMap) (k : String) :
    lookupProj (kv :: rest) k =
      if kv.1 = k then some kv.2 else lookupProj rest k := by
  by_cases h : kv.1 = k <;> simp [lookupProj, List.find?, h]

theorem lookupProj_eq_none (m : ProjectMap) (k : String) :
    lookupProj m k = none ↔ k ∉ projKeys m := by
  induction m with
  | nil => simp [lookupProj, projKeys]
  | cons kv rest ih =>
      by_cases h : kv.1 = k <;>
        simp [lookupProj_cons, projKeys, h] at ih ⊢ <;> tauto

theorem lookupProj_isSome (m : ProjectMap) (k : String) :
    (lookupProj m k).isSome ↔ k ∈ projKeys m := by
  rcases h : lookupProj m k with _ | p
  · simpa using (lookupProj_eq_none m k).mp h
  · simp only [Option.isSome_some, true_iff]
    by_contra hmem
    rw [← lookupProj_eq_none m k] at hmem
    simp [h] at hmem

theorem setProj_of_not_mem (m : ProjectMap) (k : String) (v : Project)
    (h : k ∉ projKeys m) : setProj m k v = m ++ [(k, v)] := by
  induction m with
  | nil => simp [setProj]
  | cons kv rest ih =>
      simp only [projKeys, List.map_cons, List.mem_cons] at h
      push_neg at h
      simp [setProj, Ne.symm h.1, ih (by simpa [projKeys] using h.2)]

theorem setProj_ne_nil (m : ProjectMap) (k : String) (v : Project) :
    setProj m k v ≠ [] := by
  cases m with
  | nil => simp [setProj]
  | cons kv rest =>
      by_cases h : kv.1 = k <;> simp [setProj, h]

theorem projKeys_cons (kv : String × Project) (rest : ProjectMap) :
    projKeys (kv :: rest) = kv.1 :: projKeys rest := rfl

theorem setProj_cons (kv : String × Project) (rest : ProjectMap) (k : String)
    (v : Project) :
    setProj (kv :: rest) k v =
      if kv.1 = k then (k, v) :: rest else kv :: setProj rest k v := rfl

theorem eraseProj_cons (kv : String × Project) (rest : ProjectMap)
    (k : String) :
    eraseProj (kv :: rest) k =
      if kv.1 = k then eraseProj rest k else kv :: eraseProj rest k := by
  by_cases h : kv.1 = k <;> simp [eraseProj, List.filter_cons, h]

theorem projKeys_setProj_of_mem (m : ProjectMap) (k : String) (v : Project)
    (h : k ∈ projKeys m) : projKeys (setProj m k v) = projKeys m := by
  induction m with
  | nil => simp [projKeys] at h
  | cons kv rest ih =>
      rw [setProj_cons]
      by_cases hk : kv.1 = k
      · rw [if_pos hk, projKeys_cons, projKeys_cons, hk]
      · rw [projKeys_cons, List.mem_cons] at h
        rcases h with h | h
        · exact absurd h.symm hk
        · rw [if_neg hk, projKeys_cons, projKeys_cons, ih h]

theorem lookupProj_setProj (m : ProjectMap) (k : String) (v : Project)
    (j : String) :
    lookupProj (setProj m k v) j = if k = j then some v else lookupProj m j := by
  induction m with
  | nil =>
      rw [show setProj [] k v = [(k, v)] from rfl, lookupProj_cons]
  | cons kv rest ih =>
      rw [setProj_cons]
      by_cases hk : kv.1 = k
      · rw [if_pos hk, lookupProj_cons, lookupProj_cons]
        by_cases hj : k = j
        · simp [hj]
        · have hkvj : ¬ kv.1 = j := fun hc => hj (hk.symm.trans hc)
          simp [hj, hkvj]
      · rw [if_neg hk, lookupProj_cons, lookupProj_cons, ih]
        by_cases hj : kv.1 = j
        · have hkj : ¬ k = j := fun hc => hk (hj.trans hc.symm)
          simp [hj, hkj]
        · simp [hj]

theorem projKeys_eraseProj (m : ProjectMap) (k : String) :
    projKeys (eraseProj m k) = (projKeys m).filter (fun j => j ≠ k) := by
  induction m with
  | nil => simp [eraseProj, projKeys]
  | cons kv rest ih =>
      rw [eraseProj_cons]
      by_cases h : kv.1 = k
      · rw [if_pos h, ih, projKeys_cons, List.filter_cons]
        simp [h]
      · rw [if_neg h, projKeys_cons, projKeys_cons, List.filter_cons, ih]
        simp [h]

theorem StoreInv_createProject (now : Int) (pid : String) (pd : ProjectData)
    (s : Store) (hInv : StoreInv s)
    (hFresh : lookupProj s.projects pid = none) :
    StoreInv (createProject now pid pd s).1 := by
  obtain ⟨hNodup, hPerm, hEmpty, hNonempty⟩ := hInv
  have hpid : pid ∉ projKeys s.projects := (lookupProj_eq_none _ _).mp hFresh
  have hkeys : projKeys (setProj s.projects pid (createdProject now pid pd s)) =
      projKeys s.projects ++ [pid] := by
    rw [setProj_of_not_mem s.projects pid _ hpid]
    simp [projKeys]
  rw [createProject_fst]
  refine ⟨?_, ?_, ?_, ?_⟩
  · simp only [hkeys]
    simp [List.nodup_append, hNodup, hpid]
  · simp only [hkeys]
    exact hPerm.append_right [pid]
  · intro hnil
    exact absurd hnil (setProj_ne_nil s.projects pid _)
  · intro _
    by_cases hact : jsTruthyStr s.activeProjectId
    · have hsne : s.projects ≠ [] := by
        intro hc
        rw [hEmpty hc] at hact
        simp [jsTruthyStr] at hact
      obtain ⟨pid0, p0, hact0, hlook0⟩ := hNonempty hsne
      by_cases he : pid = pid0
      · exact ⟨pid0, createdProject now pid pd s,
          by dsimp only; rw [if_pos hact]; exact hact0,
          by dsimp only; rw [lookupProj_setProj, if_pos he]⟩
      · exact ⟨pid0, p0,
          by dsimp only; rw [if_pos hact]; exact hact0,
          by dsimp only; rw [lookupProj_setProj, if_neg he]; exact hlook0⟩
    · exact ⟨pid, createdProject now pid pd s,
        by dsimp only; rw [if_neg hact],
        by dsimp only; rw [lookupProj_setProj, if_pos rfl]⟩

theorem projKeys_eq_nil (m : ProjectMap) : projKeys m = [] ↔ m = [] := by
  cases m <;> simp [projKeys]

theorem StoreInv_of_same_keys (t s : Store) (hInv : StoreInv s)
    (hproj : projKeys t.projects = projKeys s.projects)
    (hord : t.projectOrder = s.projectOrder)
    (hact : t.activeProjectId = s.activeProjectId) : StoreInv t := by
  obtain ⟨hNodup, hPerm, hEmpty, hNonempty⟩ := hInv
  refine ⟨by rw [hproj]; exact hNodup, by rw [hord, hproj]; exact hPerm, ?_, ?_⟩
  · intro hnil
    rw [hact]
    apply hEmpty
    have hk : projKeys s.projects = [] := by
      rw [← hproj, hnil]; rfl
    exact (projKeys_eq_nil _).mp hk
  · intro hne
    have hsne : s.projects ≠ [] := by
      intro hc
      apply hne
      rw [← projKeys_eq_nil, hproj, hc]
      rfl
    obtain ⟨pid0, p0, hact0, hlook0⟩ := hNonempty hsne
    have hmem : pid0 ∈ projKeys t.projects := by
      rw [hproj]
      exact (lookupProj_isSome _ _).mp (by simp [hlook0])
    have hsome := (lookupProj_isSome t.projects pid0).mpr hmem
    rcases hlk : lookupProj t.projects pid0 with _ | pt
    · rw [hlk] at hsome; simp at hsome
    · exact ⟨pid0, pt, by rw [hact]; exact hact0, hlk⟩

theorem StoreInv_updateProject (now : Int) (pid : String) (u : ProjectUpdates)
    (s : Store) (hInv : StoreInv s) :
    StoreInv (updateProject now pid u s).1 := by
  rcases hl : lookupProj s.projects pid with _ | p
  · simpa [updateProject, hl] using hInv
  · have hmem : pid ∈ projKeys s.projects := by
      rw [← lookupProj_isSome]; simp [hl]
    refine StoreInv_of_same_keys _ s hInv ?_ ?_ ?_
    · simp only [updateProject, hl]
      exact projKeys_setProj_of_mem s.projects pid _ hmem
    · simp [updateProject, hl]
    · simp [updateProject, hl]

theorem StoreInv_deleteProject (pid : String) (s : Store)
    (hInv : StoreInv s) : StoreInv (deleteProject pid s).1 := by
  obtain ⟨hNodup, hPerm, hEmpty, hNonempty⟩ := hInv
  rcases hl : lookupProj s.projects pid with _ | p
  · simpa [deleteProject, hl] using ⟨hNodup, hPerm, hEmpty, hNonempty⟩
  · have hkeys := projKeys_eraseProj s.projects pid
    have hperm1 : (s.projectOrder.filter (fun i => i ≠ pid)).Perm
        (projKeys (eraseProj s.projects pid)) := by
      rw [hkeys]; exact hPerm.filter _
    have hsne : s.projects ≠ [] := by
      intro hc
      rw [hc] at hl
      exact Option.noConfusion hl
    refine ⟨?_, ?_, ?_, ?_⟩
    · simpa [deleteProject, hl, hkeys] using hNodup.filter _
    · simpa [deleteProject, hl] using hperm1
    · intro hnil
      have hknil : projKeys (eraseProj s.projects pid) = [] := by
        simp only [deleteProject, hl] at hnil
        simp [hnil, projKeys]
      have honil : s.projectOrder.filter (fun i => i ≠ pid) = [] := by
        have := hperm1
        rw [hknil] at this
        exact List.Perm.eq_nil this
      obtain ⟨pid0, p0, hact0, hlook0⟩ := hNonempty hsne
      by_cases he : s.activeProjectId = some pid
      · have honil2 : List.filter (fun i => !decide (i = pid))
            s.projectOrder = [] := by simpa using honil
        simp [deleteProject, hl, he, honil2]
      · exfalso
        have hne : pid0 ≠ pid := fun hc => he (hc ▸ hact0)
        have hmem0 : pid0 ∈ projKeys s.projects := by
          rw [← lookupProj_isSome]; simp [hlook0]
        have : pid0 ∈ projKeys (eraseProj s.projects pid) := by
          rw [hkeys]
          exact List.mem_filter.mpr ⟨hmem0, by simp [hne]⟩
        rw [hknil] at this
        simp at this
    · intro hne
      have hkne : projKeys (eraseProj s.projects pid) ≠ [] := by
        intro hc
        apply hne
        simp only [deleteProject, hl]
        rcases hcase : eraseProj s.projects pid with _ | ⟨kv, rest⟩
        · simp [hcase]
        · rw [hcase] at hc; simp [projKeys] at hc
      by_cases he : s.activeProjectId = some pid
      · have hone : s.projectOrder.filter (fun i => i ≠ pid) ≠ [] := by
          intro hc
          rw [hc] at hperm1
          exact hkne (List.Perm.nil_eq hperm1).symm
        rcases hcase : s.projectOrder.filter (fun i => i ≠ pid) with _ | ⟨h0, t0⟩
        · exact absurd hcase hone
        · have hmemh : h0 ∈ projKeys (eraseProj s.projects pid) := by
            have : h0 ∈ s.projectOrder.filter (fun i => i ≠ pid) := by
              rw [hcase]; exact List.mem_cons_self _ _
            exact hperm1.subset this
          have hsome : (lookupProj (eraseProj s.projects pid) h0).isSome :=
            (lookupProj_isSome _ _).mpr hmemh
          rcases hlookh : lookupProj (eraseProj s.projects pid) h0 with _ | ph
          · rw [hlookh] at hsome; simp at hsome
          · have hcase2 : List.filter (fun i => !decide (i = pid))
                s.projectOrder = h0 :: t0 := by simpa using hcase
            exact ⟨h0, ph, by simp [deleteProject, hl, he, hcase2], by
              simpa [deleteProject, hl] using hlookh⟩
      · obtain ⟨pid0, p0, hact0, hlook0⟩ := hNonempty hsne
        have hne0 : pid0 ≠ pid := fun hc => he (hc ▸ hact0)
        have hmem0 : pid0 ∈ projKeys s.projects := by
          rw [← lookupProj_isSome]; simp [hlook0]
        have hmem1 : pid0 ∈ projKeys (eraseProj s.projects pid) := by
          rw [hkeys]
          exact List.mem_filter.mpr ⟨hmem0, by simp [hne0]⟩
        have hsome : (lookupProj (eraseProj s.projects pid) pid0).isSome :=
          (lookupProj_isSome _ _).mpr hmem1
        rcases hlookh : lookupProj (eraseProj s.projects pid) pid0 with _ | ph
        · rw [hlookh] at hsome; simp at hsome
        · exact ⟨pid0, ph, by simp [deleteProject, hl, he, hact0, hne0], by
            simpa [deleteProject, hl] using hlookh⟩

theorem StoreInv_applyOps (s : Store) (ops : List ProjectOp)
    (hInv : StoreInv s) (hFresh : OpsFresh s ops) :
    StoreInv (applyOps s ops) := by
  induction ops generalizing s with
  | nil => exact hInv
  | cons op rest ih =>
      obtain ⟨hf, hfs⟩ := hFresh
      refine ih (applyOp s op) ?_ hfs
      cases op with
      | create now pid pd => exact StoreInv_createProject now pid pd s hInv hf
      | update now pid u => exact StoreInv_updateProject now pid u s hInv
      | delete pid => exact StoreInv_deleteProject pid s hInv

/-- C1: for every sequence of createProject, updateProject and deleteProject
operations starting from a well-formed store (each generated id fresh, per the
contract of generateProjectId), the store stays well-formed: the order list is
a permutation of the keys of the project map, and the active id is empty when
the map is empty and names an existing project otherwise.  Moreover, deleting
the active project of any reachable state repoints the active id to the first
remaining id of the order list (or clears it when nothing remains). -/
theorem c1_store_invariant_preserved (s : Store) (ops : List ProjectOp)
    (hInv : StoreInv s) (hFresh : OpsFresh s ops) :
    StoreInv (applyOps s ops) ∧
    (∀ pid, (applyOps s ops).activeProjectId = some pid →
      (deleteProject pid (applyOps s ops)).1.activeProjectId =
        (deleteProject pid (applyOps s ops)).1.projectOrder.head?) := by
  have hInv1 := StoreInv_applyOps s ops hInv hFresh
  refine ⟨hInv1, ?_⟩
  intro pid hact
  obtain ⟨hNodup, hPerm, hEmpty, hNonempty⟩ := hInv1
  set t := applyOps s ops with ht
  have hsne : t.projects ≠ [] := by
    intro hc
    rw [hEmpty hc] at hact
    exact Option.noConfusion hact
  obtain ⟨pid0, p0, hact0, hlook0⟩ := hNonempty hsne
  have hpid0 : pid0 = pid := by
    rw [hact0] at hact
    exact Option.some.inj hact
  have hl : lookupProj t.projects pid = some p0 := hpid0 ▸ hlook0
  simp only [deleteProject, hl]
  rw [if_pos hact]
  cases hfl : t.projectOrder.filter (fun i => i ≠ pid) with
  | nil => simp [hfl]
  | cons h0 t0 => simp [hfl]

/-- Witness for C1: a concrete create-update-delete run from the empty store. -/
theorem c1_store_invariant_preserved_witness :
    StoreInv (applyOps {} [ProjectOp.create 0 "project_a" {},
      ProjectOp.update 1 "project_a" {}, ProjectOp.delete "project_a"]) :=
  (c1_store_invariant_preserved {}
    [ProjectOp.create 0 "project_a" {},
      ProjectOp.update 1 "project_a" {}, ProjectOp.delete "project_a"]
    ⟨by simp [projKeys], by simp [projKeys], fun _ => rfl,
      fun h => absurd rfl h⟩
    ⟨rfl, trivial, trivial, trivial⟩).1

/-- C10: for a project id not present in the map, updateProject returns null,
deleteProject returns false and setActiveProject returns false, and in each
case the store is unchanged and no save is performed. -/
theorem c10_unknown_id_noop (s : Store) (pid : String) (now : Int)
    (u : ProjectUpdates) (h : lookupProj s.projects pid = none) :
    updateProject now pid u s = (s, none, false) ∧
    deleteProject pid s = (s, false, false) ∧
    setActiveProject pid s = (s, false, false) := by
  refine ⟨?_, ?_, ?_⟩ <;>
    simp [updateProject, deleteProject, setActiveProject, h]

/-- Witness for C10: the empty store and an unknown id. -/
theorem c10_unknown_id_noop_witness :
    updateProject 0 "missing" {} {} = ({}, none, false) ∧
    deleteProject "missing" {} = ({}, false, false) ∧
    setActiveProject "missing" {} = ({}, false, false) :=
  c10_unknown_id_noop {} "missing" 0 {} rfl

theorem mem_setProj (m : ProjectMap) (k : String) (v : Project)
    (kv : String × Project) (h : kv ∈ setProj m k v) :
    kv = (k, v) ∨ kv ∈ m := by
  induction m with
  | nil => simpa [setProj] using h
  | cons kv0 rest ih =>
      rw [setProj_cons] at h
      by_cases hk : kv0.1 = k
      · rw [if_pos hk] at h
        rcases List.mem_cons.mp h with h | h
        · exact Or.inl h
        · exact Or.inr (List.mem_cons_of_mem _ h)
      · rw [if_neg hk] at h
        rcases List.mem_cons.mp h with h | h
        · exact Or.inr (h ▸ List.mem_cons_self _ _)
        · rcases ih h with h | h
          · exact Or.inl h
          · exact Or.inr (List.mem_cons_of_mem _ h)

theorem mem_of_lookupProj (m : ProjectMap) (k : String) (p : Project)
    (h : lookupProj m k = some p) : (k, p) ∈ m := by
  induction m with
  | nil => simp [lookupProj] at h
  | cons kv rest ih =>
      rw [lookupProj_cons] at h
      by_cases hk : kv.1 = k
      · rw [if_pos hk] at h
        have hkv : kv = (k, p) := by
          rcases kv with ⟨k0, p0⟩
          simp only [Option.some.injEq] at h
          simp [Prod.ext_iff] at hk h ⊢
          exact ⟨hk, h⟩
        exact hkv ▸ List.mem_cons_self _ _
      · exact List.mem_cons_of_mem _ (ih (by rwa [if_neg hk] at h))

theorem activeProjectEntry_lookup (s : Store) (pid : String) (p : Project)
    (h : activeProjectEntry s = some (pid, p)) :
    lookupProj s.projects pid = some p := by
  rcases hs : s.activeProjectId with _ | a
  · simp [activeProjectEntry, hs] at h
  · by_cases he : a = ""
    · simp [activeProjectEntry, hs, he] at h
    · rcases hl : lookupProj s.projects a with _ | q
      · simp [activeProjectEntry, hs, he, hl] at h
      · simp only [activeProjectEntry, hs] at h
        rw [if_neg he] at h
        simp only [hl, Option.some.injEq, Prod.mk.injEq] at h
        rw [← h.1, hl, h.2]

theorem TasksInv_updateTask (now : Int) (t : Task) (u1 u2 : Option String) :
    (updateTask now t u1 u2).completedAt = t.completedAt := rfl

theorem StoreTasksInv_setActive (s : Store) (pid : String) (p1 : Project)
    (hInv : StoreTasksInv s) (hp1 : TasksInv p1) :
    StoreTasksInv { s with projects := setProj s.projects pid p1 } := by
  intro kv hkv
  rcases mem_setProj _ _ _ _ hkv with h | h
  · rw [h]
    exact hp1
  · exact hInv kv h

theorem StoreTasksInv_saveTask (now : Int) (title description : String)
    (idx : Option Nat) (listId : TaskListId) (s : Store)
    (hInv : StoreTasksInv s) :
    StoreTasksInv (saveTask now title description idx listId s).1 := by
  unfold saveTask
  by_cases ht : title = ""
  · simpa [ht] using hInv
  · rcases ha : activeProjectEntry s with _ | ⟨pid, p⟩
    · simpa [ht, ha] using hInv
    · have hl := activeProjectEntry_lookup s pid p ha
      have hTp : TasksInv p := hInv _ (mem_of_lookupProj _ _ _ hl)
      simp only [ht, ha, if_neg]
      apply StoreTasksInv_setActive s pid _ hInv
      rcases idx with _ | i
      · constructor
        · exact hTp.1
        · intro t htm
          rcases List.mem_append.mp htm with h | h
          · exact hTp.2 t h
          · simp only [List.mem_singleton] at h
            rw [h]
            rfl
      · rcases hg : (getList p listId)[i]? with _ | existingTask
        · simpa [hg] using hTp
        · simp only [hg]
          have hmem : existingTask ∈ getList p listId := List.getElem?_mem hg
          cases listId with
          | todo =>
              constructor
              · exact hTp.1
              · intro t htm
                rcases List.mem_or_eq_of_mem_set htm with h | h
                · exact hTp.2 t h
                · rw [h, TasksInv_updateTask]
                  exact hTp.2 existingTask hmem
          | done =>
              constructor
              · intro t htm
                rcases List.mem_or_eq_of_mem_set htm with h | h
                · exact hTp.1 t h
                · rw [h, TasksInv_updateTask]
                  exact hTp.1 existingTask hmem
              · exact hTp.2

theorem StoreTasksInv_deleteTask (idx : Option Nat) (listId : TaskListId)
    (s : Store) (hInv : StoreTasksInv s) :
    StoreTasksInv (deleteTask idx listId s).1 := by
  unfold deleteTask
  rcases idx with _ | i
  · exact hInv
  · rcases ha : activeProjectEntry s with _ | ⟨pid, p⟩
    · simpa [ha] using hInv
    · have hl := activeProjectEntry_lookup s pid p ha
      have hTp : TasksInv p := hInv _ (mem_of_lookupProj _ _ _ hl)
      apply StoreTasksInv_setActive s pid _ hInv
      cases listId with
      | todo =>
          exact ⟨hTp.1, fun t ht => hTp.2 t (List.mem_of_mem_eraseIdx ht)⟩
      | done =>
          exact ⟨fun t ht => hTp.1 t (List.mem_of_mem_eraseIdx ht), hTp.2⟩

theorem StoreTasksInv_handleDrop (now : Int) (fromList toList : TaskListId)
    (idx : Nat) (s : Store) (hInv : StoreTasksInv s) :
    StoreTasksInv (handleDrop now fromList toList idx s).1 := by
  unfold handleDrop
  rcases ha : activeProjectEntry s with _ | ⟨pid, p⟩
  · simpa [ha] using hInv
  · by_cases hft : fromList = toList
    · simpa [ha, hft] using hInv
    · rcases hg : (getList p fromList)[idx]? with _ | task
      · simpa [ha, hft, hg] using hInv
      · have hl := activeProjectEntry_lookup s pid p ha
        have hTp : TasksInv p := hInv _ (mem_of_lookupProj _ _ _ hl)
        simp only [ha, hft, hg, if_neg]
        apply StoreTasksInv_setActive s pid _ hInv
        cases fromList with
        | todo =>
            cases toList with
            | todo => exact absurd rfl hft
            | done =>
                constructor
                · intro t htm
                  rcases List.mem_append.mp htm with h | h
                  · exact hTp.1 t h
                  · simp only [List.mem_singleton] at h
                    rw [h]
                    rfl
                · intro t htm
                  exact hTp.2 t (List.mem_of_mem_eraseIdx htm)
        | done =>
            cases toList with
            | done => exact absurd rfl hft
            | todo =>
                constructor
                · intro t htm
                  exact hTp.1 t (List.mem_of_mem_eraseIdx htm)
                · intro t htm
                  rcases List.mem_append.mp htm with h | h
                  · exact hTp.2 t h
                  · simp only [List.mem_singleton] at h
                    rw [h]

theorem StoreTasksInv_moveTask (now : Int) (idx : Nat)
    (fromList toList : TaskListId) (s : Store) (hInv : StoreTasksInv s) :
    StoreTasksInv (moveTask now idx fromList toList s).1 := by
  unfold moveTask
  rcases ha : activeProjectEntry s with _ | ⟨pid, p⟩
  · simpa [ha] using hInv
  · rcases hg : (getList p fromList)[idx]? with _ | task
    · simpa [ha, hg] using hInv
    · have hl := activeProjectEntry_lookup s pid p ha
      have hTp : TasksInv p := hInv _ (mem_of_lookupProj _ _ _ hl)
      simp only [ha, hg]
      apply StoreTasksInv_setActive s pid _ hInv
      cases fromList with
      | todo =>
          cases toList with
          | todo =>
              constructor
              · exact hTp.1
              · intro t htm
                rcases List.mem_append.mp htm with h | h
                · exact hTp.2 t (List.mem_of_mem_eraseIdx h)
                · simp only [List.mem_singleton] at h
                  rw [h]
          | done =>
              constructor
              · intro t htm
                rcases List.mem_append.mp htm with h | h
                · exact hTp.1 t h
                · simp only [List.mem_singleton] at h
                  rw [h]
                  rfl
              · intro t htm
                exact hTp.2 t (List.mem_of_mem_eraseIdx htm)
      | done =>
          cases toList with
          | done =>
              constructor
              · intro t htm
                rcases List.mem_append.mp htm with h | h
                · exact hTp.1 t (List.mem_of_mem_eraseIdx h)
                · simp only [List.mem_singleton] at h
                  rw [h]
                  rfl
              · exact hTp.2
          | todo =>
              constructor
              · intro t htm
                exact hTp.1 t (List.mem_of_mem_eraseIdx htm)
              · intro t htm
                rcases List.mem_append.mp htm with h | h
                · exact hTp.2 t h
                · simp only [List.mem_singleton] at h
                  rw [h]

/-- C2 counterexample: importing a legacy document whose done collection
holds a task without a completion timestamp leaves that task in the done
collection still without a completion timestamp, so the invariant claimed
for add, move, delete and import does not survive `importData`. -/
theorem c2_import_breaks_invariant_counterexample :
    ((importData 0 "project_a"
        (some { version := some "1.0",
                data := some { goal := some "X",
                               doneTasks := some [{ title := "a" }] } })
        {}).1.projects.map (fun kv => kv.2.doneTasks.map
          (fun t => t.completedAt))) = [[none]] := by
  rfl

/-- C2 (amended): the completion-timestamp invariant (`completedAt` present
exactly on done tasks) is preserved by every `saveTask`, `deleteTask`,
`handleDrop` and `moveTask`; `importData` copies the imported task lists
verbatim, so after an import the invariant holds exactly when the imported
document's own task collections already satisfy it (which the claim's
unconditional form misses). -/
theorem c2_completedAt_invariant (s : Store) (hInv : StoreTasksInv s) :
    (∀ now title description idx listId,
      StoreTasksInv (saveTask now title description idx listId s).1) ∧
    (∀ idx listId, StoreTasksInv (deleteTask idx listId s).1) ∧
    (∀ now fromList toList idx,
      StoreTasksInv (handleDrop now fromList toList idx s).1) ∧
    (∀ now idx fromList toList,
      StoreTasksInv (moveTask now idx fromList toList s).1) ∧
    (∀ now freshId (doc : ImportDoc) (d : ImportDataSection)
        (projs : ProjectMap),
      jsTruthyStr doc.version = true → doc.data = some d →
      d.projects = some projs →
      (StoreTasksInv (importData now freshId (some doc) s).1 ↔
        ∀ kv ∈ projs, TasksInv kv.2)) ∧
    (∀ now freshId (doc : ImportDoc) (d : ImportDataSection),
      jsTruthyStr doc.version = true → doc.data = some d →
      d.projects = none →
      (StoreTasksInv (importData now freshId (some doc) s).1 ↔
        ((∀ t ∈ d.doneTasks.getD [], t.completedAt.isSome) ∧
         (∀ t ∈ d.tasks.getD [], t.completedAt = none)))) := by
  refine ⟨fun now title description idx listId =>
      StoreTasksInv_saveTask now title description idx listId s hInv,
    fun idx listId => StoreTasksInv_deleteTask idx listId s hInv,
    fun now fromList toList idx =>
      StoreTasksInv_handleDrop now fromList toList idx s hInv,
    fun now idx fromList toList =>
      StoreTasksInv_moveTask now idx fromList toList s hInv,
    ?_, ?_⟩
  · intro now freshId doc d projs hv hdata hproj
    have hres : (importData now freshId (some doc) s).1.projects = projs := by
      simp [importData, hv, hdata, hproj]
    unfold StoreTasksInv
    rw [hres]
  · intro now freshId doc d hv hdata hproj
    have hres : (importData now freshId (some doc) s).1.projects =
        [(freshId,
          { id := freshId
            goal := jsOrStr d.goal "Imported Project"
            targetDate := d.targetDate
            goalCreatedAt := some (d.goalCreatedAt.getD now)
            tasks := d.tasks.getD []
            doneTasks := d.doneTasks.getD []
            color := "#4CAF50"
            isActive := true
            order := 0
            createdAt := now
            updatedAt := now })] := by
      simp [importData, hv, hdata, hproj]
    unfold StoreTasksInv
    rw [hres]
    constructor
    · intro h
      exact h _ (List.mem_singleton.mpr rfl)
    · intro h kv hkv
      rw [List.mem_singleton] at hkv
      rw [hkv]
      exact h

/-- Witness for C2: the invariant after a concrete `moveTask` from the store
produced by one `createProject` and one `saveTask`, and after a concrete
legacy import whose document already satisfies the invariant. -/
theorem c2_completedAt_invariant_witness :
    StoreTasksInv (moveTask 3 0 TaskListId.todo TaskListId.done
      (saveTask 2 "t" "" none TaskListId.todo
        (createProject 1 "project_a" {} {}).1).1).1 ∧
    StoreTasksInv (importData 0 "project_b"
      (some
        { version := some "1.0"
          data := some
            { goal := some "X"
              doneTasks := some [{ title := "a", completedAt := some 5 }] } })
      {}).1 := by
  have h0 : StoreTasksInv (saveTask 2 "t" "" none TaskListId.todo
      (createProject 1 "project_a" {} {}).1).1 := by
    unfold StoreTasksInv TasksInv
    decide
  have hempty : StoreTasksInv {} := by
    intro kv hkv
    exact absurd hkv (List.not_mem_nil kv)
  constructor
  · exact (c2_completedAt_invariant _ h0).2.2.2.1 3 0 TaskListId.todo
      TaskListId.done
  · exact ((c2_completedAt_invariant {} hempty).2.2.2.2.2 0 "project_b"
      { version := some "1.0"
        data := some
          { goal := some "X"
            doneTasks := some [{ title := "a", completedAt := some 5 }] }}
      { goal := some "X"
        doneTasks := some [{ title := "a", completedAt := some 5 }] }
      (by decide) rfl rfl).mpr (by decide)

/-- C9: in `saveState`, a failing sync-mirror write is swallowed — the call
still succeeds and the already-performed primary write of the five local
keys is kept — while a failing primary write is propagated to the caller. -/
theorem c9_saveState_failure_routing (s : Store) (st : StorageState) :
    (∀ syncFails : Bool, ∃ st1, saveState s st false syncFails =
      Except.ok st1 ∧ st1.localData = some (persistedOf s)) ∧
    (∀ syncFails : Bool, saveState s st true syncFails =
      Except.error "Error saving to local storage") := by
  constructor
  · intro syncFails
    cases syncFails
    · exact ⟨_, rfl, rfl⟩
    · exact ⟨_, rfl, rfl⟩
  · intro syncFails
    rfl

/-- C7: an input that fails JSON parsing, or lacks a truthy version field, or
lacks a data section, leaves the store untouched, writes nothing to storage,
and reports a failure (which is a distinct outcome from every success). -/
theorem c7_import_invalid_input_rejected (now : Int) (freshId : String)
    (s : Store) :
    importData now freshId none s = (s, false, ImportResult.failure) ∧
    (∀ doc : ImportDoc, jsTruthyStr doc.version = false →
      importData now freshId (some doc) s = (s, false, ImportResult.failure)) ∧
    (∀ doc : ImportDoc, doc.data = none →
      importData now freshId (some doc) s = (s, false, ImportResult.failure)) ∧
    (∀ n : Nat, ImportResult.failure ≠ ImportResult.success n) := by
  refine ⟨rfl, ?_, ?_, fun n h => ImportResult.noConfusion h⟩
  · intro doc h
    simp [importData, h]
  · intro doc h
    by_cases hv : jsTruthyStr doc.version <;> simp [importData, h, hv]

/-- Witness for C7: a document without a version and a document without a
data section are both rejected without mutation. -/
theorem c7_import_invalid_input_rejected_witness :
    importData 0 "project_a" (some { data := some {} }) {} =
      ({}, false, ImportResult.failure) ∧
    importData 0 "project_a" (some { version := some "1.0" }) {} =
      ({}, false, ImportResult.failure) :=
  ⟨(c7_import_invalid_input_rejected 0 "project_a" {}).2.1
      { data := some {} } rfl,
    (c7_import_invalid_input_rejected 0 "project_a" {}).2.2.1
      { version := some "1.0" } rfl⟩

/-- C6 counterexample: with the store's default-project-color setting changed
to `#FF0000`, the legacy-import branch still colors the synthesized project
with the literal `#4CAF50`, so the new project's color is not the global
default project color the claim promises. -/
theorem c6_hardcoded_color_counterexample :
    ((importData 0 "project_a"
        (some { version := some "1.0", data := some { goal := some "X" } })
        { globalSettings := { defaultProjectColor := "#FF0000" } }).1.projects.map
      (fun kv => kv.2.color)) = ["#4CAF50"] ∧
    ({ globalSettings := { defaultProjectColor := "#FF0000" } } :
      Store).globalSettings.defaultProjectColor = "#FF0000" := by
  constructor <;> rfl

/-- C6 (amended): a valid document without a projects map takes the legacy
branch: exactly one new project with the generated id, a placeholder title
for an unset goal, display order 0, and the fixed literal color `#4CAF50`
(the built-in default, not the store's current default-color setting);
it replaces the whole project set, becomes active, and the order list is
exactly that one id. -/
theorem c6_legacy_import_single_project (now : Int) (freshId : String)
    (s : Store) (doc : ImportDoc) (d : ImportDataSection)
    (hver : jsTruthyStr doc.version = true) (hdata : doc.data = some d)
    (hleg : d.projects = none) :
    importData now freshId (some doc) s =
      ({ s with
          projects := [(freshId,
            { id := freshId
              goal := jsOrStr d.goal "Imported Project"
              targetDate := d.targetDate
              goalCreatedAt := some (d.goalCreatedAt.getD now)
              tasks := d.tasks.getD []
              doneTasks := d.doneTasks.getD []
              color := "#4CAF50"
              isActive := true
              order := 0
              createdAt := now
              updatedAt := now })]
          activeProjectId := some freshId
          projectOrder := [freshId]
          migrationVersion := 2 }, true, ImportResult.success 1) := by
  simp [importData, hver, hdata, hleg, projKeys]

/-- Witness for C6: the legacy scenario document from the specification. -/
theorem c6_legacy_import_single_project_witness :
    importData 0 "project_a"
      (some
        { version := some "1.0"
          data := some
            { goal := some "X"
              targetDate := some 1735689600000
              tasks := some []
              doneTasks := some [{ title := "a", completedAt := some 5 }] } })
      {} =
    ({ projects := [("project_a",
        { id := "project_a", goal := "X",
          targetDate := some 1735689600000, goalCreatedAt := some 0,
          tasks := [], doneTasks := [{ title := "a", completedAt := some 5 }],
          color := "#4CAF50", isActive := true, order := 0,
          createdAt := 0, updatedAt := 0 })]
       activeProjectId := some "project_a"
       projectOrder := ["project_a"]
       globalSettings := {}
       migrationVersion := 2 }, true, ImportResult.success 1) :=
  c6_legacy_import_single_project 0 "project_a" {}
    { version := some "1.0"
      data := some
        { goal := some "X"
          targetDate := some 1735689600000
          tasks := some []
          doneTasks := some [{ title := "a", completedAt := some 5 }] } }
    { goal := some "X"
      targetDate := some 1735689600000
      tasks := some []
      doneTasks := some [{ title := "a", completedAt := some 5 }] }
    (by decide) rfl rfl

set_option maxRecDepth 1000000 in
/-- C3, evaluated at the failing input: a project with 1001 done tasks, all
id-less (as `createTask` makes them) and all completed within the last 90
days.  The cleanup trims it to 1000 and drops the task completed at instant
1, although that task's relevant timestamp lies within the 90-day window —
contradicting the claim and the function's own comments, because the
undefined-id membership test discards every candidate for the 90-day
exemption. -/
theorem c3_ninety_day_retention_violated :
    overfullDoneTasks.length = 1001 ∧
    (∀ t ∈ overfullDoneTasks, 0 - ninetyDaysMs ≤ relevantTime t) ∧
    (cleanupProject 0 overfullProject).1.doneTasks.length = 1000 ∧
    ({ title := "t", createdAt := 1, updatedAt := 1,
       completedAt := some 1 } : Task) ∈ overfullDoneTasks ∧
    ({ title := "t", createdAt := 1, updatedAt := 1,
       completedAt := some 1 } : Task) ∉
      (cleanupProject 0 overfullProject).1.doneTasks := by
  refine ⟨?_, ?_, ?_, ?_, ?_⟩
  · simp only [overfullDoneTasks, List.length_map, List.length_range]
  · intro t ht
    simp only [overfullDoneTasks, List.mem_map, List.mem_range] at ht
    obtain ⟨k, hk, rfl⟩ := ht
    have hk1 : (k : Int) ≤ 1000 := by exact_mod_cast Nat.le_of_lt_succ hk
    have hk0 : (0 : Int) ≤ (k : Int) := Int.ofNat_nonneg k
    simp only [relevantTime]
    rw [if_neg (by omega : ¬ (1001 - (k : Int)) = 0)]
    simp only [ninetyDaysMs]
    omega
  · decide
  · decide
  · decide

theorem dayOf_mul_dayMs (j : Int) : dayOf (j * dayMs) = j := by
  simp only [dayOf, dayMs]
  omega

theorem getActivityStartDate_floor (now : Int) (p : Project) :
    getActivityStartDate now p =
      dayOf (getActivityStartDate now p) * dayMs := by
  simp only [getActivityStartDate, floorDay, dayOf_mul_dayMs]

theorem dayRange_length (d : Int) (n : Nat) : (dayRange d n).length = n := by
  induction n generalizing d with
  | zero => rfl
  | succ m ih => simp [dayRange, ih]

theorem dayRange_getElem (d : Int) (n : Nat) (i : Nat)
    (h : i < (dayRange d n).length) : (dayRange d n)[i] = d + i := by
  induction n generalizing d i with
  | zero => simp [dayRange] at h
  | succ m ih =>
      cases i with
      | zero => simp [dayRange]
      | succ k =>
          have h2 : k < (dayRange (d + 1) m).length := by
            rw [dayRange_length]
            rw [dayRange_length] at h
            omega
          have : (dayRange d (m + 1))[k + 1] = (dayRange (d + 1) m)[k] := rfl
          rw [this, ih (d + 1) k h2]
          push_cast
          ring_nf

theorem dayRange_snoc (d : Int) (n : Nat) :
    dayRange d (n + 1) = dayRange d n ++ [d + n] := by
  induction n generalizing d with
  | zero => simp [dayRange]
  | succ m ih =>
      rw [show dayRange d (m + 1 + 1) = d :: dayRange (d + 1) (m + 1) from rfl,
        ih (d + 1),
        show dayRange d (m + 1) = d :: dayRange (d + 1) m from rfl,
        List.cons_append]
      congr 2
      push_cast
      ring_nf

theorem dayRange_take (d : Int) (n k : Nat) (h : k ≤ n) :
    (dayRange d n).take k = dayRange d k := by
  induction k generalizing d n with
  | zero => simp [dayRange]
  | succ m ih =>
      cases n with
      | zero => omega
      | succ n2 =>
          rw [show dayRange d (n2 + 1) = d :: dayRange (d + 1) n2 from rfl,
            List.take_succ_cons, ih (d + 1) n2 (by omega)]
          rfl

theorem mkMatrixEntry_dateStr (now : Int) (p : Project) (j : Int) :
    (mkMatrixEntry now p (j * dayMs)).dateStr = j := by
  simp [mkMatrixEntry, dayOf_mul_dayMs]

theorem mkMatrixEntry_count (now : Int) (p : Project) (j : Int) :
    (mkMatrixEntry now p (j * dayMs)).count = getTasksCompletedOnDate j p := by
  simp [mkMatrixEntry, dayOf_mul_dayMs]

theorem mkMatrixEntry_isFuture (now : Int) (p : Project) (j : Int) :
    (mkMatrixEntry now p (j * dayMs)).isFuture = decide (dayOf now < j) := by
  have key : ((now < j * dayMs) ∧ ¬ (dayOf now = j)) ↔ dayOf now < j := by
    simp only [dayOf, dayMs]
    omega
  simp only [mkMatrixEntry, dayOf_mul_dayMs]
  rw [← decide_not, ← Bool.decide_and]
  exact decide_eq_decide.mpr key

theorem mkMatrixEntry_isToday (now : Int) (p : Project) (j : Int) :
    (mkMatrixEntry now p (j * dayMs)).isToday = decide (dayOf now = j) := by
  simp [mkMatrixEntry, dayOf_mul_dayMs]

theorem mkMatrixEntry_level (now : Int) (p : Project) (j : Int) :
    (mkMatrixEntry now p (j * dayMs)).level =
      if dayOf now < j then -1
      else getActivityLevel (getTasksCompletedOnDate j p) := by
  have key : ((now < j * dayMs) ∧ ¬ (dayOf now = j)) ↔ dayOf now < j := by
    simp only [dayOf, dayMs]
    omega
  simp only [mkMatrixEntry, dayOf_mul_dayMs]
  rw [← decide_not, ← Bool.decide_and]
  simp only [decide_eq_true_eq]
  exact if_congr key rfl rfl

theorem claimLevel_eq_getActivityLevel (c : Nat) :
    claimLevel c = getActivityLevel c := by
  unfold claimLevel getActivityLevel
  split_ifs <;> omega

theorem claimStartDay_eq (now : Int) (p : Project) (g : Int)
    (hg : p.goalCreatedAt = some g) :
    dayOf (getActivityStartDate now p) = claimStartDay now p g := by
  have hmono : ∀ a b : Int, a ≤ b → dayOf a ≤ dayOf b := by
    intro a b h
    simp only [dayOf, dayMs]
    omega
  simp only [getActivityStartDate, floorDay, dayOf_mul_dayMs,
    activityStartInstant, hg, Option.getD_some]
  by_cases hlen : (p.tasks ++ p.doneTasks).length > 0
  · rw [if_pos hlen]
    unfold claimStartDay
    rw [if_neg (show ¬ (p.tasks ++ p.doneTasks).length = 0 from by omega)]
    by_cases he : earliestCreated now (p.tasks ++ p.doneTasks) < g
    · rw [if_pos he, min_eq_right (hmono _ _ (le_of_lt he))]
    · rw [if_neg he, min_eq_left (hmono _ _ (not_lt.mp he))]
  · rw [if_neg hlen]
    unfold claimStartDay
    rw [if_pos (show (p.tasks ++ p.doneTasks).length = 0 from by omega)]

theorem endDate_eq (now td : Int) :
    (if endOfDay now < endOfDay td then endOfDay td else endOfDay now) =
      max (dayOf now) (dayOf td) * dayMs + (dayMs - 1) := by
  simp only [endOfDay, floorDay, dayOf, dayMs]
  omega

theorem matrixLoop_eq_aux (now : Int) (p : Project) (E : Int) :
    ∀ (n : Nat) (d : Int), (E + 1 - d).toNat = n →
      matrixLoop now p (E * dayMs + (dayMs - 1)) (d * dayMs) =
        (dayRange d n).map (fun j => mkMatrixEntry now p (j * dayMs)) := by
  intro n
  induction n with
  | zero =>
      intro d hd
      have hc : ¬ (d * dayMs ≤ E * dayMs + (dayMs - 1)) := by
        simp only [dayMs]
        omega
      rw [matrixLoop, if_neg hc]
      rfl
  | succ m ih =>
      intro d hd
      have hc : d * dayMs ≤ E * dayMs + (dayMs - 1) := by
        simp only [dayMs]
        omega
      rw [matrixLoop, if_pos hc,
        show d * dayMs + dayMs = (d + 1) * dayMs from by ring,
        ih (d + 1) (by omega)]
      rfl

theorem generateActivityMatrix_eq (now : Int) (p : Project) (g td : Int)
    (hg : p.goalCreatedAt = some g) (htd : p.targetDate = some td) :
    generateActivityMatrix now p =
      (dayRange (dayOf (getActivityStartDate now p))
          (max (dayOf now) (dayOf td) + 1 -
            dayOf (getActivityStartDate now p)).toNat).map
        (fun j => mkMatrixEntry now p (j * dayMs)) := by
  simp only [generateActivityMatrix, hg, htd, Option.getD_some]
  rw [if_neg (by simp), endDate_eq]
  have hcur := getActivityStartDate_floor now p
  calc matrixLoop now p
        (max (dayOf now) (dayOf td) * dayMs + (dayMs - 1))
        (getActivityStartDate now p)
      = matrixLoop now p
          (max (dayOf now) (dayOf td) * dayMs + (dayMs - 1))
          (dayOf (getActivityStartDate now p) * dayMs) := by rw [← hcur]
    _ = _ := matrixLoop_eq_aux now p (max (dayOf now) (dayOf td)) _
          (dayOf (getActivityStartDate now p)) rfl

/-- C4: with both a goal-creation instant and a target date present, the
generated matrix holds exactly one entry per local calendar day, gapless and
inclusive, from the claim's start day (the earlier of the goal-creation day
and the earliest task-creation day) through the later of today and the
target date; each entry's count is the number of done tasks completed on
that local day; the level is the claimed bucketing of the count except that
a day strictly after today carries the sentinel -1 (today itself never
does, since only days strictly after today are marked future); and with
either field missing the matrix is empty. -/
theorem c4_activity_matrix_shape (now : Int) (p : Project) :
    ((p.goalCreatedAt = none ∨ p.targetDate = none) →
      generateActivityMatrix now p = []) ∧
    (∀ g td, p.goalCreatedAt = some g → p.targetDate = some td →
      (generateActivityMatrix now p).length =
        (max (dayOf now) (dayOf td) + 1 - claimStartDay now p g).toNat ∧
      ∀ i (h : i < (generateActivityMatrix now p).length),
        ((generateActivityMatrix now p).get ⟨i, h⟩).dateStr =
            claimStartDay now p g + i ∧
        ((generateActivityMatrix now p).get ⟨i, h⟩).count =
            getTasksCompletedOnDate (claimStartDay now p g + i) p ∧
        ((generateActivityMatrix now p).get ⟨i, h⟩).level =
            (if dayOf now < claimStartDay now p g + i then -1
             else claimLevel
               (getTasksCompletedOnDate (claimStartDay now p g + i) p)) ∧
        (((generateActivityMatrix now p).get ⟨i, h⟩).isFuture = true ↔
            dayOf now < claimStartDay now p g + i)) := by
  constructor
  · intro h
    rcases h with h | h <;> simp [generateActivityMatrix, h]
  · intro g td hg htd
    have hM := generateActivityMatrix_eq now p g td hg htd
    have hS := claimStartDay_eq now p g hg
    constructor
    · rw [hM, List.length_map, dayRange_length, hS]
    · intro i h
      have hlen : i < (dayRange (dayOf (getActivityStartDate now p))
          (max (dayOf now) (dayOf td) + 1 -
            dayOf (getActivityStartDate now p)).toNat).length := by
        rw [← List.length_map (f := fun j => mkMatrixEntry now p (j * dayMs)),
          ← hM]
        exact h
      have hget : (generateActivityMatrix now p).get ⟨i, h⟩ =
          mkMatrixEntry now p
            ((dayOf (getActivityStartDate now p) + i) * dayMs) := by
        have hd := dayRange_getElem (dayOf (getActivityStartDate now p))
          (max (dayOf now) (dayOf td) + 1 -
            dayOf (getActivityStartDate now p)).toNat i hlen
        have e1 : (generateActivityMatrix now p)[i]? =
            some (mkMatrixEntry now p
              ((dayOf (getActivityStartDate now p) + i) * dayMs)) := by
          rw [hM, List.getElem?_map, List.getElem?_eq_getElem hlen, hd]
          rfl
        rw [List.get_eq_getElem, List.getElem_eq_iff]
        exact e1
      rw [hget, mkMatrixEntry_dateStr, mkMatrixEntry_count,
        mkMatrixEntry_level, mkMatrixEntry_isFuture, hS,
        claimLevel_eq_getActivityLevel]
      refine ⟨rfl, rfl, rfl, by simp⟩

/-- Witness for C4: the shape facts at a concrete project with both fields
set, and emptiness at a project lacking the goal-creation instant. -/
theorem c4_activity_matrix_shape_witness :
    (generateActivityMatrix 0 futureProj).length =
      (max (dayOf 0) (dayOf (2 * dayMs)) + 1 -
        claimStartDay 0 futureProj 0).toNat ∧
    generateActivityMatrix (-1) { id := "q" } = [] :=
  ⟨((c4_activity_matrix_shape 0 futureProj).2 0 (2 * dayMs) rfl rfl).1,
    (c4_activity_matrix_shape (-1) { id := "q" }).1 (Or.inl rfl)⟩

theorem mem_dayRange (d : Int) (n : Nat) (j : Int) :
    j ∈ dayRange d n ↔ d ≤ j ∧ j < d + n := by
  induction n generalizing d with
  | zero => simp [dayRange]
  | succ m ih =>
      simp only [dayRange, List.mem_cons, ih]
      constructor
      · intro h
        rcases h with h | h
        · omega
        · omega
      · intro h
        by_cases hj : j = d
        · exact Or.inl hj
        · right
          push_cast at h ⊢
          omega

theorem foldl_count_eq (l : List MatrixEntry) (a : Nat) :
    l.foldl (fun s e => s + e.count) a =
      a + (l.map (fun e => e.count)).sum := by
  induction l generalizing a with
  | nil => simp
  | cons e t ih =>
      simp only [List.foldl_cons, List.map_cons, List.sum_cons, ih]
      omega

theorem countWhile_rev_dayRange (now : Int) (p : Project) (d : Int) :
    ∀ m : Nat,
      countWhilePos (((dayRange d m).map
          (fun j => mkMatrixEntry now p (j * dayMs))).reverse) =
        consecActive (fun j => getTasksCompletedOnDate j p) (d + m - 1) m := by
  intro m
  induction m with
  | zero => rfl
  | succ k ih =>
      rw [dayRange_snoc, List.map_append, List.reverse_append]
      simp only [List.map_cons, List.map_nil, List.reverse_cons,
        List.reverse_nil, List.nil_append, List.singleton_append]
      rw [show countWhilePos (mkMatrixEntry now p ((d + k) * dayMs) ::
            ((dayRange d k).map
              (fun j => mkMatrixEntry now p (j * dayMs))).reverse) =
          if (mkMatrixEntry now p ((d + k) * dayMs)).count > 0 then
            1 + countWhilePos (((dayRange d k).map
              (fun j => mkMatrixEntry now p (j * dayMs))).reverse)
          else 0 from rfl]
      rw [ih, mkMatrixEntry_count]
      have hD : d + ((k + 1 : Nat) : Int) - 1 = d + (k : Int) := by
        push_cast
        ring
      rw [hD]
      rw [show consecActive (fun j => getTasksCompletedOnDate j p)
            (d + (k : Int)) (k + 1) =
          if 0 < getTasksCompletedOnDate (d + (k : Int)) p then
            1 + consecActive (fun j => getTasksCompletedOnDate j p)
              (d + (k : Int) - 1) k
          else 0 from rfl]

theorem streakNoToday_all_future (l : List MatrixEntry)
    (h : ∀ e ∈ l, e.isFuture = true) : streakNoToday l = 0 := by
  induction l with
  | nil => rfl
  | cons e t ih =>
      rw [show streakNoToday (e :: t) =
          if e.isFuture then streakNoToday t
          else if e.count > 0 then 1 + streakNoToday t else 0 from rfl]
      rw [h e (List.mem_cons_self _ _), if_pos rfl]
      exact ih (fun x hx => h x (List.mem_cons_of_mem _ hx))

theorem findIdx_rev_dayRange (x d : Int) :
    ∀ n : Nat, d ≤ x → x < d + n →
      (dayRange d n).reverse.findIdx? (fun j => decide (j = x)) =
        some (d + n - 1 - x).toNat := by
  intro n
  induction n with
  | zero =>
      intro h1 h2
      omega
  | succ k ih =>
      intro h1 h2
      rw [dayRange_snoc, List.reverse_append]
      simp only [List.reverse_cons, List.reverse_nil, List.nil_append,
        List.singleton_append]
      rw [List.findIdx?_cons]
      by_cases hx : d + (k : Int) = x
      · rw [if_pos (by simpa using hx)]
        have h3 : (d + ((k + 1 : Nat) : Int) - 1 - x).toNat = 0 := by
          push_cast
          omega
        rw [h3]
      · rw [if_neg (by simpa using hx), List.findIdx?_succ,
          ih h1 (by push_cast at h2 ⊢; omega)]
        rw [show Option.map (fun i => i + 1)
            (some (d + (k : Int) - 1 - x).toNat) =
            some ((d + (k : Int) - 1 - x).toNat + 1) from rfl]
        have h3 : (d + (k : Int) - 1 - x).toNat + 1 =
            (d + ((k + 1 : Nat) : Int) - 1 - x).toNat := by
          push_cast
          omega
        rw [h3]

theorem getCurrentStreak_generated (now : Int) (p : Project) (g td : Int)
    (hg : p.goalCreatedAt = some g) (htd : p.targetDate = some td) :
    getCurrentStreak now (generateActivityMatrix now p) =
      if dayOf now < dayOf (getActivityStartDate now p) then 0
      else consecActive (fun j => getTasksCompletedOnDate j p) (dayOf now)
        (dayOf now - dayOf (getActivityStartDate now p) + 1).toNat := by
  have hM := generateActivityMatrix_eq now p g td hg htd
  have hpredeq : ((fun e : MatrixEntry => decide (e.dateStr = dayOf now)) ∘
      (fun j => mkMatrixEntry now p (j * dayMs))) =
      (fun j : Int => decide (j = dayOf now)) := by
    funext j
    simp [Function.comp, mkMatrixEntry_dateStr]
  have hlen : (generateActivityMatrix now p).length =
      (max (dayOf now) (dayOf td) + 1 -
        dayOf (getActivityStartDate now p)).toNat := by
    rw [hM, List.length_map, dayRange_length]
  have hrev : (generateActivityMatrix now p).reverse.findIdx?
      (fun e => decide (e.dateStr = dayOf now)) =
      (dayRange (dayOf (getActivityStartDate now p))
        (max (dayOf now) (dayOf td) + 1 -
          dayOf (getActivityStartDate now p)).toNat).reverse.findIdx?
        (fun j : Int => decide (j = dayOf now)) := by
    rw [hM, ← List.map_reverse, List.findIdx?_map, hpredeq]
  by_cases hcase : dayOf now < dayOf (getActivityStartDate now p)
  · have hnone : findLastTodayIdx now (generateActivityMatrix now p) =
        none := by
      unfold findLastTodayIdx
      rw [hrev, List.findIdx?_eq_none_iff.mpr ?_]
      intro j hj
      rw [List.mem_reverse, mem_dayRange] at hj
      simp only [decide_eq_false_iff_not]
      omega
    unfold getCurrentStreak
    rw [hnone, if_pos hcase]
    apply streakNoToday_all_future
    intro e he
    rw [List.mem_reverse, hM, List.mem_map] at he
    obtain ⟨j, hj, rfl⟩ := he
    rw [mem_dayRange] at hj
    rw [mkMatrixEntry_isFuture]
    simp only [decide_eq_true_eq]
    omega
  · have hnow1 : dayOf (getActivityStartDate now p) ≤ dayOf now := by omega
    have hnow2 : dayOf now < dayOf (getActivityStartDate now p) +
        ((max (dayOf now) (dayOf td) + 1 -
          dayOf (getActivityStartDate now p)).toNat : Int) := by
      have : dayOf now ≤ max (dayOf now) (dayOf td) := le_max_left _ _
      omega
    have hsome : findLastTodayIdx now (generateActivityMatrix now p) =
        some ((generateActivityMatrix now p).length - 1 -
          (dayOf (getActivityStartDate now p) +
            ((max (dayOf now) (dayOf td) + 1 -
              dayOf (getActivityStartDate now p)).toNat : Int) - 1 -
            dayOf now).toNat) := by
      unfold findLastTodayIdx
      rw [hrev, findIdx_rev_dayRange (dayOf now)
        (dayOf (getActivityStartDate now p)) _ hnow1 hnow2]
    unfold getCurrentStreak
    rw [hsome]
    dsimp only
    have hidx : (generateActivityMatrix now p).length - 1 -
        (dayOf (getActivityStartDate now p) +
          ((max (dayOf now) (dayOf td) + 1 -
            dayOf (getActivityStartDate now p)).toNat : Int) - 1 -
          dayOf now).toNat + 1 =
        (dayOf now - dayOf (getActivityStartDate now p) + 1).toNat := by
      rw [hlen]
      have : dayOf now ≤ max (dayOf now) (dayOf td) := le_max_left _ _
      omega
    rw [hidx]
    have htake : (generateActivityMatrix now p).take
        (dayOf now - dayOf (getActivityStartDate now p) + 1).toNat =
        (dayRange (dayOf (getActivityStartDate now p))
          (dayOf now - dayOf (getActivityStartDate now p) + 1).toNat).map
          (fun j => mkMatrixEntry now p (j * dayMs)) := by
      rw [hM, ← List.map_take, dayRange_take]
      have : dayOf now ≤ max (dayOf now) (dayOf td) := le_max_left _ _
      omega
    rw [htake, countWhile_rev_dayRange, if_neg hcase]
    congr 1
    omega

/-- C5 counterexample: in the matrix generated for `futureProj` at instant 0,
tomorrow's cell is marked future with count 1, yet the stats line's total
completed-task count is 1 — the future cell is included — while the sum over
the non-future cells is 0; so future entries are not excluded from the total
as claimed. -/
theorem c5_future_excluded_counterexample :
    (updateActivityStats 0 (generateActivityMatrix 0 futureProj)).1 = 1 ∧
    (((generateActivityMatrix 0 futureProj).filter
        (fun e => !e.isFuture)).map (fun e => e.count)).sum = 0 := by
  have hM := generateActivityMatrix_eq 0 futureProj 0 (2 * dayMs) rfl rfl
  rw [hM]
  constructor
  · decide
  · decide

/-- C5 (amended): for every generated matrix, the reported triple is: a total
that sums the counts of ALL cells, future ones included (the claim wrongly
says future cells are excluded from it); an active-day count over non-future
positive-count days only; and the streak walking backward from today through
consecutive positive-count days, stopping at the first zero-count day, and 0
when today precedes the matrix (today absent, every cell future). -/
theorem c5_streak_and_stats (now : Int) (p : Project) (g td : Int)
    (hg : p.goalCreatedAt = some g) (htd : p.targetDate = some td) :
    updateActivityStats now (generateActivityMatrix now p) =
      (((dayRange (claimStartDay now p g)
          (max (dayOf now) (dayOf td) + 1 - claimStartDay now p g).toNat).map
          (fun j => getTasksCompletedOnDate j p)).sum,
       ((dayRange (claimStartDay now p g)
          (max (dayOf now) (dayOf td) + 1 - claimStartDay now p g).toNat).filter
          (fun j => decide (j ≤ dayOf now) &&
            decide (0 < getTasksCompletedOnDate j p))).length,
       if dayOf now < claimStartDay now p g then 0
       else consecActive (fun j => getTasksCompletedOnDate j p) (dayOf now)
         (dayOf now - claimStartDay now p g + 1).toNat) := by
  have hM := generateActivityMatrix_eq now p g td hg htd
  have hS := claimStartDay_eq now p g hg
  rw [← hS]
  unfold updateActivityStats
  refine Prod.ext ?_ (Prod.ext ?_ ?_)
  · show (generateActivityMatrix now p).foldl (fun s e => s + e.count) 0 = _
    rw [foldl_count_eq, hM, List.map_map]
    simp only [Nat.zero_add]
    have hf : ((fun e : MatrixEntry => e.count) ∘
        (fun j => mkMatrixEntry now p (j * dayMs))) =
        (fun j : Int => getTasksCompletedOnDate j p) := by
      funext j
      exact mkMatrixEntry_count now p j
    rw [hf]
  · show (((generateActivityMatrix now p).filter (fun e => !e.isFuture)).filter
        (fun e => e.count > 0)).length = _
    rw [hM, List.filter_map, List.filter_map, List.length_map,
      List.filter_filter]
    apply congrArg List.length
    apply List.filter_congr
    intro j hj
    simp only [Function.comp, mkMatrixEntry_isFuture, mkMatrixEntry_count]
    rw [← decide_not,
      show decide (¬ dayOf now < j) = decide (j ≤ dayOf now) from
        decide_eq_decide.mpr not_lt]
    exact Bool.and_comm _ _
  · show getCurrentStreak now (generateActivityMatrix now p) = _
    exact getCurrentStreak_generated now p g td hg htd

/-- Witness for C5: the amended statement at `futureProj` and instant 0. -/
theorem c5_streak_and_stats_witness :
    updateActivityStats 0 (generateActivityMatrix 0 futureProj) =
      (((dayRange (claimStartDay 0 futureProj 0)
          (max (dayOf 0) (dayOf (2 * dayMs)) + 1 -
            claimStartDay 0 futureProj 0).toNat).map
          (fun j => getTasksCompletedOnDate j futureProj)).sum,
       ((dayRange (claimStartDay 0 futureProj 0)
          (max (dayOf 0) (dayOf (2 * dayMs)) + 1 -
            claimStartDay 0 futureProj 0).toNat).filter
          (fun j => decide (j ≤ dayOf 0) &&
            decide (0 < getTasksCompletedOnDate j futureProj))).length,
       if dayOf 0 < claimStartDay 0 futureProj 0 then 0
       else consecActive (fun j => getTasksCompletedOnDate j futureProj)
         (dayOf 0) (dayOf 0 - claimStartDay 0 futureProj 0 + 1).toNat) :=
  c5_streak_and_stats 0 futureProj 0 (2 * dayMs) rfl rfl

end TaskManager
